import Mathlib

/-!
Shallow embedding of the table-maker repository (dimension planning,
table-data structure, cell-content synthesis and text wrapping), together
with proofs of the behavioural claims about it.

Modelling conventions:
* Python's process-wide random generator is modelled by an `Oracle`: three
  streams of outcomes (`flt` for `random.random()` results, `int` for
  `random.randint`/`random.choice` draws, `txt` for strings produced by the
  Faker collaborator), consumed in call order through an explicit counter
  state `RState`.  Properties are quantified over all oracles.
* Python floats standing for probabilities and font measurements are
  modelled as rationals; a font is an additive width function on characters.
* Python lists are Lean lists; in-place index assignment is `List.set`.
* Python `int` values that are always non-negative are `Nat`; the silent
  truncation `rows - 1 = 0` at `rows = 0` agrees with Python's behaviour of
  `range`/list multiplication on negative arguments, which is how these
  values are consumed in the source.
* `random.randint(0, n - 1)` raises `ValueError` when `n = 0`; fallible
  paths therefore live in `Except String`.
* Text is modelled as `List Char` (strings are lists of characters).
-/

/-- Streams of random outcomes: `flt` models successive `random.random()`
results, `int` models successive `random.randint`/`random.choice` draws
(interpreted modulo the range size), `txt` models successive strings
returned by the Faker collaborator. -/
structure Oracle where
  flt : Nat → ℚ
  int : Nat → Nat
  txt : Nat → String

/-- Counters recording how much of each oracle stream has been consumed. -/
structure RState where
  fi : Nat
  ii : Nat
  ti : Nat

/-- Draw one `random.random()` value. -/
def oFloat (o : Oracle) (s : RState) : ℚ × RState :=
  (o.flt s.fi, { s with fi := s.fi + 1 })

/-- Draw `random.randint(a, b)` for a constant non-empty range `a ≤ b`. -/
def oRandNat (o : Oracle) (a b : Nat) (s : RState) : Nat × RState :=
  (a + o.int s.ii % (b + 1 - a), { s with ii := s.ii + 1 })

/-- Draw `random.choice(xs)` from a non-empty list. -/
def oChoice {α : Type} (o : Oracle) (xs : List α) (dflt : α) (s : RState) : α × RState :=
  (xs.getD (o.int s.ii % xs.length) dflt, { s with ii := s.ii + 1 })

/-- Draw one Faker-produced string. -/
def oTxt (o : Oracle) (s : RState) : String × RState :=
  (o.txt s.ti, { s with ti := s.ti + 1 })

/-- Draw `random.randint(a, b)` where the range may be empty, in which case
Python raises `ValueError: empty range for randrange`. -/
def oRandintE (o : Oracle) (a b : Int) (s : RState) : Except String (Int × RState) :=
  if b < a then Except.error "empty range for randrange"
  else Except.ok (a + (o.int s.ii : Int) % (b - a + 1), { s with ii := s.ii + 1 })

/-- `dimensions.TableDimensions._generate_cell_sizes` / `maker.generate_cell_sizes`,
varied branch: the while-loop distributing the remaining pixels one at a time
to the cell chosen by `pick` (one `random.randint(0, num_cells - 1)` draw per
unit). -/
def distributeExtra (pick : Nat → Nat) : Nat → List Nat → List Nat
  | 0, sizes => sizes
  | k + 1, sizes => distributeExtra pick k (sizes.set (pick k) (sizes.getD (pick k) 0 + 1))

/-- `dimensions.TableDimensions._generate_cell_sizes` and the identical
`maker.generate_cell_sizes`: uniform mode gives `total // n` per cell with the
first `total % n` cells one extra pixel; varied mode starts every cell at
`min_size` and distributes `total - min_size * n` single pixels to randomly
picked cells. -/
def generate_cell_sizes (num_cells total_size min_size : Nat) (uniform : Bool)
    (pick : Nat → Nat) : List Nat :=
  if uniform then
    (List.range num_cells).map
      (fun i => total_size / num_cells + if i < total_size % num_cells then 1 else 0)
  else
    distributeExtra pick (total_size - min_size * num_cells) (List.replicate num_cells min_size)

/-- The four gridline styles of `dimensions.py` / `maker.py`. -/
def lineStyleChoices : List String := ["solid_black", "dotted_black", "solid_gray", "removed"]

/-- `dimensions.TableDimensions._generate_line_styles` and the identical
`maker.generate_line_styles`: uniform tables get all-solid-black gridlines;
varied tables draw each gridline style independently (`random.choices` on the
weighted four-element style list, modelled by the in-range picks
`pickH`/`pickV`). -/
def generate_line_styles (rows columns : Nat) (is_normal : Bool)
    (pickH pickV : Nat → Nat) : List String × List String :=
  if is_normal then
    (List.replicate (rows + 1) "solid_black", List.replicate (columns + 1) "solid_black")
  else
    ((List.range (rows + 1)).map
        (fun i => lineStyleChoices.getD (pickH i % lineStyleChoices.length) "solid_black"),
     (List.range (columns + 1)).map
        (fun i => lineStyleChoices.getD (pickV i % lineStyleChoices.length) "solid_black"))

/-- `dimensions.TableDimensions`: physical layout of a table. -/
structure TableDimensions where
  rows : Nat
  columns : Nat
  total_width : Nat
  total_height : Nat
  margin : Nat
  is_uniform : Bool
  column_widths : List Nat
  row_heights : List Nat
  horizontal_styles : List String
  vertical_styles : List String

/-- `dimensions.TableDimensions.__init__`: derives `column_widths` (floor 40),
`row_heights` (floor 30) and the gridline styles from the requested totals. -/
def TableDimensions.init (rows columns total_width total_height margin : Nat)
    (is_uniform : Bool) (pickW pickH pickLH pickLV : Nat → Nat) : TableDimensions :=
  { rows := rows, columns := columns, total_width := total_width,
    total_height := total_height, margin := margin, is_uniform := is_uniform,
    column_widths := generate_cell_sizes columns total_width 40 is_uniform pickW,
    row_heights := generate_cell_sizes rows total_height 30 is_uniform pickH,
    horizontal_styles := (generate_line_styles rows columns is_uniform pickLH pickLV).1,
    vertical_styles := (generate_line_styles rows columns is_uniform pickLH pickLV).2 }

/-- `table_data.TableData`: table content with optional headers. -/
structure TableData where
  rows : Nat
  columns : Nat
  has_column_headers : Bool
  has_row_headers : Bool
  data : List (List (Option String))
  column_headers : List (Option String)
  row_headers : List (Option String)
  corner_header : Option String
deriving DecidableEq

/-- `table_data.TableData.__init__`: a `rows × columns` grid of `None`,
header lists sized by the flags, and the fixed corner label `"ID"` exactly
when both header kinds are present. -/
def TableData.init (rows columns : Nat) (has_column_headers has_row_headers : Bool) :
    TableData :=
  { rows := rows, columns := columns,
    has_column_headers := has_column_headers, has_row_headers := has_row_headers,
    data := List.replicate rows (List.replicate columns none),
    column_headers := if has_column_headers then List.replicate columns none else [],
    row_headers := if has_row_headers then List.replicate rows none else [],
    corner_header := if has_column_headers && has_row_headers then some "ID" else none }

/-- The dictionary serialised by `table_data.TableData.to_dict` (and dumped to
JSON by the orchestrator). -/
structure TableDict where
  data : List (List (Option String))
  has_column_headers : Bool
  has_row_headers : Bool
  column_headers : List (Option String)
  row_headers : List (Option String)
  corner_header : Option String
deriving DecidableEq

/-- `table_data.TableData.to_dict`. -/
def TableData.to_dict (t : TableData) : TableDict :=
  { data := t.data,
    has_column_headers := t.has_column_headers,
    has_row_headers := t.has_row_headers,
    column_headers := t.column_headers,
    row_headers := t.row_headers,
    corner_header := t.corner_header }

/-- `table_data.TableData.from_dict`: infers `rows` from the body length and
`columns` from the first body row (0 when the body is empty), builds a fresh
instance and then overwrites its four content fields with the stored values. -/
def TableData.from_dict (d : TableDict) : TableData :=
  let rows := d.data.length
  let columns := if 0 < d.data.length then (d.data.headD []).length else 0
  { TableData.init rows columns d.has_column_headers d.has_row_headers with
    data := d.data,
    column_headers := d.column_headers,
    row_headers := d.row_headers,
    corner_header := d.corner_header }

/-- Measured width of a piece of text under an additive font model: the sum
of the widths of its characters (`font.getlength` on the concatenation). -/
def lineWidth (w : Char → ℚ) (l : List Char) : ℚ := (l.map w).sum

/-- Helper for `splitWords`: accumulates the current word (reversed). -/
def splitWordsAux : List Char → List Char → List (List Char)
  | [], cur => if cur = [] then [] else [cur.reverse]
  | c :: rest, cur =>
    if c.isWhitespace then
      if cur = [] then splitWordsAux rest [] else cur.reverse :: splitWordsAux rest []
    else splitWordsAux rest (c :: cur)

/-- Python's `str.split()` with no arguments: split on runs of whitespace,
discarding empty pieces. -/
def splitWords (text : List Char) : List (List Char) := splitWordsAux text []

/-- Python's `" ".join(...)` on a list of character-list words. -/
def joinSpace : List (List Char) → List Char
  | [] => []
  | [x] => x
  | x :: xs => x ++ ' ' :: joinSpace xs

/-- The `char` branch of `maker.wrap_text` / `visualizer.TableVisualizer._wrap_text`:
greedy character wrapping.  A character is appended to the current line while
the accumulated width stays within `max_width`; otherwise the current line is
emitted (if non-empty) and the character starts a new line. -/
def wrapCharLoop (w : Char → ℚ) (max_width : ℚ) :
    List Char → List (List Char) → List Char → ℚ → List (List Char)
  | [], lines, cur, _ => if cur = [] then lines else lines ++ [cur]
  | c :: rest, lines, cur, curW =>
    if curW + w c ≤ max_width then
      wrapCharLoop w max_width rest lines (cur ++ [c]) (curW + w c)
    else
      wrapCharLoop w max_width rest (if cur = [] then lines else lines ++ [cur]) [c] (w c)

/-- The `word` branch of `maker.wrap_text` / `visualizer.TableVisualizer._wrap_text`:
greedy word wrapping over the split words, mirroring the source's running
width update `current_width += word_width + space_width` (the space term is
added unconditionally because the word was already appended) and the wrap
branch's reset `current_width = word_width`.  Lines are kept as word lists;
the source joins them with `" "`. -/
def wrapWordsLoop (w : Char → ℚ) (max_width space_width : ℚ) :
    List (List Char) → List (List (List Char)) → List (List Char) → ℚ → List (List (List Char))
  | [], lines, cur, _ => if cur = [] then lines else lines ++ [cur]
  | word :: rest, lines, cur, curW =>
    if max_width < curW + lineWidth w word ∧ cur ≠ [] then
      wrapWordsLoop w max_width space_width rest (lines ++ [cur]) [word] (lineWidth w word)
    else
      wrapWordsLoop w max_width space_width rest lines (cur ++ [word])
        (curW + lineWidth w word + space_width)

/-- Word-mode wrapping of a word list, started from the empty accumulator. -/
def wrapWordLines (w : Char → ℚ) (max_width space_width : ℚ)
    (words : List (List Char)) : List (List (List Char)) :=
  wrapWordsLoop w max_width space_width words [] [] 0

/-- `maker.wrap_text` (identical to `visualizer.TableVisualizer._wrap_text`):
mode `none` returns the text unchanged as a single line, `word` word-wraps
(with `space_width = font.getlength(" ")`), `char` character-wraps, and any
other mode falls back to word wrapping. -/
def wrap_text (text : List Char) (w : Char → ℚ) (max_width : ℚ)
    (wrap_mode : String) : List (List Char) :=
  if wrap_mode = "none" then [text]
  else if wrap_mode = "word" then
    (wrapWordLines w max_width (w ' ') (splitWords text)).map joinSpace
  else if wrap_mode = "char" then wrapCharLoop w max_width text [] [] 0
  else (wrapWordLines w max_width (w ' ') (splitWords text)).map joinSpace

/-- The dictionary produced by `maker.generate_cell_content`. -/
structure CellContent where
  data : List (List (Option String))
  has_column_headers : Bool
  has_row_headers : Bool
  column_headers : List (Option String)
  row_headers : List (Option String)
  corner_header : Option String
deriving DecidableEq

/-- In-place assignment `grid[i][j] = v` on a list-of-lists grid. -/
def set2d (g : List (List (Option String))) (i j : Nat) (v : Option String) :
    List (List (Option String)) :=
  g.set i ((g.getD i []).set j v)

/-- Faker's `words(nb)` as consumed by the column-header branch: draw `nb`
words and capitalise each. -/
def takeWords (o : Oracle) (nb : Nat) (s : RState) : List String × RState :=
  (List.range nb).foldl
    (fun acc _ =>
      let t := oTxt o acc.2
      (acc.1 ++ [t.1.capitalize], t.2))
    ([], s)

/-- The column-header loop shared by `maker.generate_cell_content` and
`generators.RandomDataGenerator.generate_table_data`: for each non-empty
column, build the four header options (capitalised word, capitalised 1-2 word
phrase, surname, currency name) and pick one. -/
def chLoop (o : Oracle) (ec : Option Nat) (n : Nat) (s : RState) :
    List (Option String) × RState :=
  (List.range n).foldl
    (fun acc j =>
      if ec = some j then acc
      else
        let t1 := oTxt o acc.2
        let opt1 := t1.1.capitalize
        let nb := oRandNat o 1 2 t1.2
        let ws := takeWords o nb.1 nb.2
        let opt2 := String.intercalate " " ws.1
        let t3 := oTxt o ws.2
        let t4 := oTxt o t3.2
        let h := oChoice o [opt1, opt2, t3.1, t4.1] opt1 t4.2
        (acc.1.set j (some h.1), h.2))
    (List.replicate n none, s)

/-- The row-header loop shared by both content synthesizers: each non-empty
row gets, with probability 0.7, a text header picked from four Faker options,
else the numeric string of its row index. -/
def rhLoop (o : Oracle) (er : List Bool) (n : Nat) (s : RState) :
    List (Option String) × RState :=
  (List.range n).foldl
    (fun acc i =>
      if er.getD i false then acc
      else
        let r := oFloat o acc.2
        if r.1 < mkRat 7 10 then
          let t1 := oTxt o r.2
          let t2 := oTxt o t1.2
          let t3 := oTxt o t2.2
          let t4 := oTxt o t3.2
          let h := oChoice o [t1.1.capitalize, t2.1, t3.1, t4.1] t1.1 t4.2
          (acc.1.set i (some h.1), h.2)
        else (acc.1.set i (some (toString i)), r.2))
    (List.replicate n none, s)

/-- The cell-text branch of both content synthesizers: 60% numeric-like
(within that, `large_number_probability` chance of a 15/20/25/30 digit
string, else 50/50 a small integer or a two-decimal float, both via Faker),
40% text-like (50/50 a 1-3 letter string or a 1-5 word phrase). -/
def genCellText (o : Oracle) (large_number_probability : ℚ) (s : RState) :
    String × RState :=
  let r1 := oFloat o s
  if r1.1 < mkRat 3 5 then
    let r2 := oFloat o r1.2
    if r2.1 < large_number_probability then
      let dc := oChoice o [15, 20, 25, 30] 15 r2.2
      (List.range dc.1).foldl
        (fun acc _ =>
          let d := oRandNat o 0 9 acc.2
          (acc.1 ++ toString d.1, d.2))
        ("", dc.2)
    else
      let r3 := oFloat o r2.2
      if r3.1 < mkRat 1 2 then
        let t := oTxt o r3.2
        (t.1, t.2)
      else
        let t := oTxt o r3.2
        (t.1, t.2)
  else
    let r2 := oFloat o r1.2
    if r2.1 < mkRat 1 2 then
      let nb := oRandNat o 1 3 r2.2
      (List.range nb.1).foldl
        (fun acc _ =>
          let t := oTxt o acc.2
          (acc.1 ++ t.1, t.2))
        ("", nb.2)
    else
      let nb := oRandNat o 1 5 r2.2
      let ws := (List.range nb.1).foldl
        (fun acc _ =>
          let t := oTxt o acc.2
          (acc.1 ++ [t.1], t.2))
        (([] : List String), nb.2)
      (String.intercalate " " ws.1, ws.2)

/-- The main data loop shared by both content synthesizers: every cell not in
an empty row or the empty column is left `None` with probability
`empty_cell_probability`, else filled with generated text. -/
def dataLoop (o : Oracle) (empty_cell_probability large_number_probability : ℚ)
    (er : List Bool) (ec : Option Nat) (n_rows n_cols : Nat)
    (grid0 : List (List (Option String))) (s : RState) :
    List (List (Option String)) × RState :=
  (List.range n_rows).foldl
    (fun acc i =>
      (List.range n_cols).foldl
        (fun acc2 j =>
          if er.getD i false ∨ ec = some j then acc2
          else
            let r := oFloat o acc2.2
            if r.1 < empty_cell_probability then (acc2.1, r.2)
            else
              let t := genCellText o large_number_probability r.2
              (set2d acc2.1 i j (some t.1), t.2))
        acc)
    (grid0, s)

/-- The emptiness-decision block shared by both content synthesizers: outside
normal mode, each row is independently marked empty, and with probability
`empty_column_probability` one column index is drawn by
`random.randint(0, n_cols - 1)` — which raises when `n_cols = 0`. -/
def emptinessBlock (o : Oracle) (is_normal : Bool)
    (empty_row_probability empty_column_probability : ℚ) (n_rows n_cols : Nat)
    (s : RState) : Except String (List Bool × Option Nat × RState) :=
  if is_normal then Except.ok (List.replicate n_rows false, none, s)
  else
    let erp := (List.range n_rows).foldl
      (fun acc i =>
        let r := oFloat o acc.2
        (if r.1 < empty_row_probability then acc.1.set i true else acc.1, r.2))
      (List.replicate n_rows false, s)
    let r := oFloat o erp.2
    if r.1 < empty_column_probability then
      match oRandintE o 0 ((n_cols : Int) - 1) r.2 with
      | Except.error e => Except.error e
      | Except.ok v => Except.ok (erp.1, some v.1.toNat, v.2)
    else Except.ok (erp.1, none, r.2)

/-- `maker.generate_cell_content`: decides header presence by one coin flip
each, shrinks the data body by one row/column per present header kind, then
fills headers and body through the shared loops.  The corner header is the
fixed label `"ID"` exactly when both header kinds are present. -/
def generate_cell_content (rows columns : Nat) (o : Oracle) (is_normal : Bool)
    (empty_row_probability empty_column_probability empty_cell_probability
     large_number_probability column_header_probability row_header_probability : ℚ) :
    Except String CellContent :=
  let q1 := oFloat o ⟨0, 0, 0⟩
  let has_column_headers := decide (q1.1 < column_header_probability)
  let q2 := oFloat o q1.2
  let has_row_headers := decide (q2.1 < row_header_probability)
  let data_rows := rows - (if has_column_headers then 1 else 0)
  let data_columns := columns - (if has_row_headers then 1 else 0)
  match emptinessBlock o is_normal empty_row_probability empty_column_probability
      data_rows data_columns q2.2 with
  | Except.error e => Except.error e
  | Except.ok etriple =>
    let chs := if has_column_headers then chLoop o etriple.2.1 data_columns etriple.2.2
      else ([], etriple.2.2)
    let rhs := if has_row_headers then rhLoop o etriple.1 data_rows chs.2
      else ([], chs.2)
    let grid := dataLoop o empty_cell_probability large_number_probability
      etriple.1 etriple.2.1 data_rows data_columns
      (List.replicate data_rows (List.replicate data_columns none)) rhs.2
    Except.ok
      { data := grid.1,
        has_column_headers := has_column_headers,
        has_row_headers := has_row_headers,
        column_headers := chs.1,
        row_headers := rhs.1,
        corner_header := if has_column_headers && has_row_headers then some "ID" else none }

/-- `generators.RandomDataGenerator.generate_table_data`: the second content
synthesizer.  Unlike `generate_cell_content` it does NOT shrink the body for
headers: it builds a full `rows × columns` `TableData` and runs all loops
over the full ranges. -/
def generate_table_data (rows columns : Nat) (o : Oracle) (is_normal : Bool)
    (empty_row_probability empty_column_probability empty_cell_probability
     large_number_probability column_header_probability row_header_probability : ℚ) :
    Except String TableData :=
  let q1 := oFloat o ⟨0, 0, 0⟩
  let has_column_headers := decide (q1.1 < column_header_probability)
  let q2 := oFloat o q1.2
  let has_row_headers := decide (q2.1 < row_header_probability)
  match emptinessBlock o is_normal empty_row_probability empty_column_probability
      rows columns q2.2 with
  | Except.error e => Except.error e
  | Except.ok etriple =>
    let table := TableData.init rows columns has_column_headers has_row_headers
    let chs := if has_column_headers then chLoop o etriple.2.1 columns etriple.2.2
      else (table.column_headers, etriple.2.2)
    let rhs := if has_row_headers then rhLoop o etriple.1 rows chs.2
      else (table.row_headers, chs.2)
    let grid := dataLoop o empty_cell_probability large_number_probability
      etriple.1 etriple.2.1 rows columns table.data rhs.2
    Except.ok { table with data := grid.1, column_headers := chs.1, row_headers := rhs.1 }

/-! ## Helper lemmas -/

theorem foldl_inv {α β : Type _} (P : α → Prop) (f : α → β → α)
    (hstep : ∀ a b, P a → P (f a b)) :
    ∀ (l : List β) (a : α), P a → P (l.foldl f a) := by
  intro l
  induction l with
  | nil => intro a h; exact h
  | cons x xs ih => intro a h; exact ih (f a x) (hstep a x h)

theorem sum_range_add_ite (q r : Nat) :
    ∀ n, ((List.range n).map (fun i => q + if i < r then 1 else 0)).sum = n * q + min r n := by
  intro n
  induction n with
  | zero => simp
  | succ n ih =>
    rw [List.range_succ, List.map_append, List.sum_append, ih, Nat.succ_mul]
    by_cases h : n < r
    · simp only [List.map_cons, List.map_nil, List.sum_cons, List.sum_nil, if_pos h]
      omega
    · simp only [List.map_cons, List.map_nil, List.sum_cons, List.sum_nil, if_neg h]
      omega

theorem sum_set_incr : ∀ (l : List Nat) (i : Nat), i < l.length →
    (l.set i (l.getD i 0 + 1)).sum = l.sum + 1 := by
  intro l
  induction l with
  | nil => intro i h; simp at h
  | cons a t ih =>
    intro i h
    cases i with
    | zero => simp [List.set]; omega
    | succ i =>
      have ht : i < t.length := by simpa using h
      simp only [List.set, List.getD_cons_succ, List.sum_cons]
      rw [ih i ht]
      omega

theorem distributeExtra_length (pick : Nat → Nat) :
    ∀ (k : Nat) (sizes : List Nat), (distributeExtra pick k sizes).length = sizes.length := by
  intro k
  induction k with
  | zero => intro sizes; rfl
  | succ k ih => intro sizes; rw [distributeExtra, ih, List.length_set]

theorem distributeExtra_sum (pick : Nat → Nat) :
    ∀ (k : Nat) (sizes : List Nat), (∀ j, pick j < sizes.length) →
    (distributeExtra pick k sizes).sum = sizes.sum + k := by
  intro k
  induction k with
  | zero => intro sizes _; rfl
  | succ k ih =>
    intro sizes hp
    rw [distributeExtra, ih _ (fun j => by rw [List.length_set]; exact hp j)]
    rw [sum_set_incr sizes (pick k) (hp k)]
    omega

theorem distributeExtra_lb (pick : Nat → Nat) (m : Nat) :
    ∀ (k : Nat) (sizes : List Nat), (∀ x ∈ sizes, m ≤ x) →
    ∀ x ∈ distributeExtra pick k sizes, m ≤ x := by
  intro k
  induction k with
  | zero => intro sizes h; exact h
  | succ k ih =>
    intro sizes h
    rw [distributeExtra]
    by_cases hi : pick k < sizes.length
    · apply ih
      intro x hx
      rcases List.mem_or_eq_of_mem_set hx with hmem | heq
      · exact h x hmem
      · subst heq
        have hget : sizes.getD (pick k) 0 ∈ sizes := by
          rw [List.getD_eq_getElem sizes 0 hi]
          exact List.getElem_mem hi
        have := h _ hget
        omega
    · rw [List.set_eq_of_length_le (Nat.le_of_not_lt hi)]
      exact ih sizes h

theorem generate_cell_sizes_spec (num_cells total_size min_size : Nat) (uniform : Bool)
    (pick : Nat → Nat) (hn : 1 ≤ num_cells) (ht : min_size * num_cells ≤ total_size)
    (hp : ∀ k, pick k < num_cells) :
    (generate_cell_sizes num_cells total_size min_size uniform pick).sum = total_size ∧
    ∀ x ∈ generate_cell_sizes num_cells total_size min_size uniform pick, min_size ≤ x := by
  unfold generate_cell_sizes
  cases uniform
  · simp only [Bool.false_eq_true, if_false]
    constructor
    · rw [distributeExtra_sum pick _ _ (fun j => by rw [List.length_replicate]; exact hp j)]
      rw [List.sum_replicate, smul_eq_mul]
      have hcomm : min_size * num_cells = num_cells * min_size := Nat.mul_comm _ _
      omega
    · apply distributeExtra_lb
      intro x hx
      rw [List.eq_of_mem_replicate hx]
  · simp only [if_true]
    have hq : min_size ≤ total_size / num_cells :=
      (Nat.le_div_iff_mul_le (by omega)).2 ht
    constructor
    · rw [sum_range_add_ite]
      have h1 : total_size % num_cells < num_cells := Nat.mod_lt _ (by omega)
      have h2 := Nat.div_add_mod total_size num_cells
      omega
    · intro x hx
      rcases List.mem_map.1 hx with ⟨i, _, rfl⟩
      by_cases h : i < total_size % num_cells <;> simp [h] <;> omega

/-! ## Claim theorems -/

/-- C1: for every `TableDimensions` cell-size generation with at least one
row and one column, given `total_width ≥ 40 * columns` and
`total_height ≥ 30 * rows`, in both uniform and varied mode the generated
`column_widths` sum exactly to `total_width`, the `row_heights` sum exactly
to `total_height`, every column width is at least 40 and every row height is
at least 30.  (`pickW`/`pickH` are the in-range `random.randint` draws of the
varied mode.) -/
theorem dimensions_sum_and_floor (rows columns total_width total_height margin : Nat)
    (uniform : Bool) (pickW pickH pickLH pickLV : Nat → Nat)
    (hc : 1 ≤ columns) (hr : 1 ≤ rows)
    (hw : 40 * columns ≤ total_width) (hh : 30 * rows ≤ total_height)
    (hpW : ∀ k, pickW k < columns) (hpH : ∀ k, pickH k < rows) :
    (TableDimensions.init rows columns total_width total_height margin uniform
        pickW pickH pickLH pickLV).column_widths.sum = total_width ∧
    (∀ x ∈ (TableDimensions.init rows columns total_width total_height margin uniform
        pickW pickH pickLH pickLV).column_widths, 40 ≤ x) ∧
    (TableDimensions.init rows columns total_width total_height margin uniform
        pickW pickH pickLH pickLV).row_heights.sum = total_height ∧
    (∀ x ∈ (TableDimensions.init rows columns total_width total_height margin uniform
        pickW pickH pickLH pickLV).row_heights, 30 ≤ x) := by
  have hW := generate_cell_sizes_spec columns total_width 40 uniform pickW hc
    (by omega) hpW
  have hH := generate_cell_sizes_spec rows total_height 30 uniform pickH hr
    (by omega) hpH
  exact ⟨hW.1, hW.2, hH.1, hH.2⟩

/-- Witness for C1 at a concrete input. -/
theorem dimensions_sum_and_floor_witness :
    (TableDimensions.init 2 3 500 500 10 false (fun _ => 0) (fun _ => 0)
        (fun _ => 0) (fun _ => 0)).column_widths.sum = 500 ∧
    (TableDimensions.init 2 3 500 500 10 false (fun _ => 0) (fun _ => 0)
        (fun _ => 0) (fun _ => 0)).row_heights.sum = 500 :=
  ⟨(dimensions_sum_and_floor 2 3 500 500 10 false (fun _ => 0) (fun _ => 0)
      (fun _ => 0) (fun _ => 0) (by decide) (by decide) (by decide) (by decide)
      (fun k => Nat.succ_pos 2) (fun k => Nat.succ_pos 1)).1,
   (dimensions_sum_and_floor 2 3 500 500 10 false (fun _ => 0) (fun _ => 0)
      (fun _ => 0) (fun _ => 0) (by decide) (by decide) (by decide) (by decide)
      (fun k => Nat.succ_pos 2) (fun k => Nat.succ_pos 1)).2.2.1⟩

/-- C6: uniform-mode cell-size generation returns exactly `n` sizes in which
cell `i` gets `total / n` pixels plus one extra exactly when
`i < total % n`, the sizes sum exactly to `total`, and any two sizes differ
by at most 1. -/
theorem uniform_cell_sizes_exact (num_cells total_size min_size : Nat)
    (pick : Nat → Nat) (hn : 1 ≤ num_cells) :
    (generate_cell_sizes num_cells total_size min_size true pick).length = num_cells ∧
    (∀ i, i < num_cells →
      (generate_cell_sizes num_cells total_size min_size true pick).getD i 0 =
        total_size / num_cells + if i < total_size % num_cells then 1 else 0) ∧
    (generate_cell_sizes num_cells total_size min_size true pick).sum = total_size ∧
    (∀ x ∈ generate_cell_sizes num_cells total_size min_size true pick,
      ∀ y ∈ generate_cell_sizes num_cells total_size min_size true pick, x ≤ y + 1) := by
  unfold generate_cell_sizes
  simp only [if_true]
  refine ⟨by simp, ?_, ?_, ?_⟩
  · intro i hi
    have hlen : i < ((List.range num_cells).map
        (fun i => total_size / num_cells + if i < total_size % num_cells then 1 else 0)).length := by
      simp [hi]
    rw [List.getD_eq_getElem _ 0 hlen]
    simp [hi]
  · rw [sum_range_add_ite]
    have h1 : total_size % num_cells < num_cells := Nat.mod_lt _ (by omega)
    have h2 := Nat.div_add_mod total_size num_cells
    omega
  · intro x hx y hy
    rcases List.mem_map.1 hx with ⟨i, _, rfl⟩
    rcases List.mem_map.1 hy with ⟨j, _, rfl⟩
    by_cases h : i < total_size % num_cells <;> by_cases h2 : j < total_size % num_cells <;>
      simp [h, h2] <;> omega

/-- Witness for C6 at a concrete input. -/
theorem uniform_cell_sizes_exact_witness :
    (generate_cell_sizes 3 10 0 true (fun _ => 0)).length = 3 ∧
    (generate_cell_sizes 3 10 0 true (fun _ => 0)).sum = 10 :=
  ⟨(uniform_cell_sizes_exact 3 10 0 (fun _ => 0) (by decide)).1,
   (uniform_cell_sizes_exact 3 10 0 (fun _ => 0) (by decide)).2.2.1⟩

/-- C9: for `n ≥ 1` cells and any `total_size` strictly below `n * min_size`,
varied-mode cell-size generation raises no error and silently returns the
list `[min_size] * n`, whose sum strictly exceeds `total_size`: the
documented precondition violation breaks the exact-sum invariant without any
exception or warning. -/
theorem varied_precondition_violation (num_cells total_size min_size : Nat)
    (pick : Nat → Nat) (hn : 1 ≤ num_cells) (h : total_size < min_size * num_cells) :
    generate_cell_sizes num_cells total_size min_size false pick =
      List.replicate num_cells min_size ∧
    total_size < (generate_cell_sizes num_cells total_size min_size false pick).sum := by
  have hz : total_size - min_size * num_cells = 0 := by omega
  have heq : generate_cell_sizes num_cells total_size min_size false pick =
      List.replicate num_cells min_size := by
    unfold generate_cell_sizes
    rw [if_neg (by simp), hz]
    rfl
  refine ⟨heq, ?_⟩
  rw [heq, List.sum_replicate, smul_eq_mul]
  have hcomm : min_size * num_cells = num_cells * min_size := Nat.mul_comm _ _
  omega

/-- Witness for C9 at a concrete input. -/
theorem varied_precondition_violation_witness :
    generate_cell_sizes 2 50 40 false (fun _ => 0) = List.replicate 2 40 ∧
    50 < (generate_cell_sizes 2 50 40 false (fun _ => 0)).sum :=
  ⟨(varied_precondition_violation 2 50 40 (fun _ => 0) (by decide) (by decide)).1,
   (varied_precondition_violation 2 50 40 (fun _ => 0) (by decide) (by decide)).2⟩

/-- C8: line-style generation returns `rows + 1` horizontal styles and
`columns + 1` vertical styles; in uniform (normal) mode every style is
`"solid_black"`, and in every mode each style belongs to the four-element
set {solid_black, dotted_black, solid_gray, removed} (in varied mode the
styles are drawn from exactly that set). -/
theorem line_styles_spec (rows columns : Nat) (is_normal : Bool)
    (pickLH pickLV : Nat → Nat) :
    (generate_line_styles rows columns is_normal pickLH pickLV).1.length = rows + 1 ∧
    (generate_line_styles rows columns is_normal pickLH pickLV).2.length = columns + 1 ∧
    (is_normal = true →
      (∀ s ∈ (generate_line_styles rows columns is_normal pickLH pickLV).1,
        s = "solid_black") ∧
      (∀ s ∈ (generate_line_styles rows columns is_normal pickLH pickLV).2,
        s = "solid_black")) ∧
    (∀ s ∈ (generate_line_styles rows columns is_normal pickLH pickLV).1,
      s ∈ lineStyleChoices) ∧
    (∀ s ∈ (generate_line_styles rows columns is_normal pickLH pickLV).2,
      s ∈ lineStyleChoices) := by
  have hmem : ∀ (pick : Nat → Nat) (i : Nat),
      lineStyleChoices.getD (pick i % lineStyleChoices.length) "solid_black" ∈
        lineStyleChoices := by
    intro pick i
    have hlt : pick i % lineStyleChoices.length < lineStyleChoices.length :=
      Nat.mod_lt _ (by decide)
    rw [List.getD_eq_getElem _ _ hlt]
    exact List.getElem_mem hlt
  cases is_normal
  · unfold generate_line_styles
    simp only [Bool.false_eq_true, if_false]
    refine ⟨by simp, by simp, by simp, ?_, ?_⟩
    · intro s hs
      rcases List.mem_map.1 hs with ⟨i, _, rfl⟩
      exact hmem pickLH i
    · intro s hs
      rcases List.mem_map.1 hs with ⟨i, _, rfl⟩
      exact hmem pickLV i
  · unfold generate_line_styles
    simp only [if_true]
    refine ⟨by simp, by simp, ?_, ?_, ?_⟩
    · intro _
      constructor <;> intro s hs <;> exact List.eq_of_mem_replicate hs
    · intro s hs
      rw [List.eq_of_mem_replicate hs]
      decide
    · intro s hs
      rw [List.eq_of_mem_replicate hs]
      decide

/-- Witness for C8 at a concrete input. -/
theorem line_styles_spec_witness :
    (generate_line_styles 1 2 true (fun _ => 0) (fun _ => 0)).1.length = 2 ∧
    (generate_line_styles 1 2 true (fun _ => 0) (fun _ => 0)).2.length = 3 :=
  ⟨(line_styles_spec 1 2 true (fun _ => 0) (fun _ => 0)).1,
   (line_styles_spec 1 2 true (fun _ => 0) (fun _ => 0)).2.1⟩

/-- C2 counterexample: the claim quantifies over every `TableData` including
`rows = 0`; for a table with `rows = 0` and `columns = 1` the body is empty,
so `from_dict` infers `columns = 0` and the round trip does not reproduce
`columns`. -/
theorem tabledata_roundtrip_cex :
    (TableData.from_dict (TableData.to_dict (TableData.init 0 1 false false))).columns = 0 ∧
    (TableData.init 0 1 false false).columns = 1 := ⟨rfl, rfl⟩

/-- C2 (amended): for every `TableData` the round trip through `to_dict` and
`from_dict` always reproduces `data`, both header flags, `column_headers`,
`row_headers` and `corner_header`; and for every `TableData` whose body grid
has shape `rows × columns`, the round trip is the identity (so in particular
reproduces `rows` and `columns`) whenever `rows ≥ 1` or `columns = 0`. -/
theorem tabledata_roundtrip :
    (∀ t : TableData,
      (TableData.from_dict (TableData.to_dict t)).data = t.data ∧
      (TableData.from_dict (TableData.to_dict t)).has_column_headers = t.has_column_headers ∧
      (TableData.from_dict (TableData.to_dict t)).has_row_headers = t.has_row_headers ∧
      (TableData.from_dict (TableData.to_dict t)).column_headers = t.column_headers ∧
      (TableData.from_dict (TableData.to_dict t)).row_headers = t.row_headers ∧
      (TableData.from_dict (TableData.to_dict t)).corner_header = t.corner_header) ∧
    (∀ t : TableData, t.data.length = t.rows → (∀ r ∈ t.data, r.length = t.columns) →
      (1 ≤ t.rows ∨ t.columns = 0) →
      TableData.from_dict (TableData.to_dict t) = t) := by
  constructor
  · intro t
    exact ⟨rfl, rfl, rfl, rfl, rfl, rfl⟩
  · intro t hlen hrow hnz
    rcases t with ⟨rows, columns, hch, hrh, data, ch, rh, corner⟩
    have hlen2 : data.length = rows := hlen
    have hrow2 : ∀ r ∈ data, r.length = columns := hrow
    have hnz2 : 1 ≤ rows ∨ columns = 0 := hnz
    have hred : TableData.from_dict
        (TableData.to_dict (⟨rows, columns, hch, hrh, data, ch, rh, corner⟩ : TableData)) =
        ⟨data.length, if 0 < data.length then (data.headD []).length else 0,
          hch, hrh, data, ch, rh, corner⟩ := rfl
    rw [hred]
    have hcols : (if 0 < data.length then (data.headD []).length else 0) = columns := by
      by_cases hd : 0 < data.length
      · rw [if_pos hd]
        cases data with
        | nil => simp at hd
        | cons r rest => simpa using hrow2 r (List.mem_cons_self r rest)
      · rw [if_neg hd]
        rcases hnz2 with h1 | h1
        · omega
        · exact h1.symm
    rw [hcols, hlen2]

/-- Witness for C2 at a concrete input. -/
theorem tabledata_roundtrip_witness :
    TableData.from_dict (TableData.to_dict (TableData.init 2 3 true true)) =
      TableData.init 2 3 true true :=
  tabledata_roundtrip.2 (TableData.init 2 3 true true) (by decide) (by decide)
    (by decide)

/-! ## Text wrapping lemmas -/

@[simp]
theorem lineWidth_nil (w : Char → ℚ) : lineWidth w [] = 0 := rfl

@[simp]
theorem lineWidth_cons (w : Char → ℚ) (c : Char) (l : List Char) :
    lineWidth w (c :: l) = w c + lineWidth w l := by
  simp [lineWidth]

@[simp]
theorem lineWidth_append (w : Char → ℚ) (l1 l2 : List Char) :
    lineWidth w (l1 ++ l2) = lineWidth w l1 + lineWidth w l2 := by
  simp [lineWidth]

theorem wrapCharLoop_width (w : Char → ℚ) (max_width : ℚ) :
    ∀ (text : List Char) (lines : List (List Char)) (cur : List Char) (curW : ℚ),
    (∀ l ∈ lines, lineWidth w l ≤ max_width ∨ ∃ c, l = [c] ∧ max_width < w c) →
    (cur ≠ [] → lineWidth w cur ≤ max_width ∨ ∃ c, cur = [c] ∧ max_width < w c) →
    curW = lineWidth w cur →
    ∀ l ∈ wrapCharLoop w max_width text lines cur curW,
      lineWidth w l ≤ max_width ∨ ∃ c, l = [c] ∧ max_width < w c := by
  intro text
  induction text with
  | nil =>
    intro lines cur curW hlines hcur _
    rw [wrapCharLoop]
    by_cases hc : cur = []
    · rw [if_pos hc]
      exact hlines
    · rw [if_neg hc]
      intro l hl
      rcases List.mem_append.1 hl with h | h
      · exact hlines l h
      · rw [List.mem_singleton.1 h]
        exact hcur hc
  | cons c rest ih =>
    intro lines cur curW hlines hcur hW
    rw [wrapCharLoop]
    by_cases hfit : curW + w c ≤ max_width
    · rw [if_pos hfit]
      apply ih _ _ _ hlines
      · intro _
        left
        simp only [lineWidth_append, lineWidth_cons, lineWidth_nil, add_zero]
        rw [← hW]
        exact hfit
      · simp only [lineWidth_append, lineWidth_cons, lineWidth_nil, add_zero, hW]
    · rw [if_neg hfit]
      apply ih
      · intro l hl
        by_cases hc : cur = []
        · rw [if_pos hc] at hl
          exact hlines l hl
        · rw [if_neg hc] at hl
          rcases List.mem_append.1 hl with h | h
          · exact hlines l h
          · rw [List.mem_singleton.1 h]
            exact hcur hc
      · intro _
        rcases le_or_lt (w c) max_width with h | h
        · left
          simp only [lineWidth_cons, lineWidth_nil, add_zero]
          exact h
        · right
          exact ⟨c, rfl, h⟩
      · simp only [lineWidth_cons, lineWidth_nil, add_zero]

theorem wrapCharLoop_flatten (w : Char → ℚ) (max_width : ℚ) :
    ∀ (text : List Char) (lines : List (List Char)) (cur : List Char) (curW : ℚ),
    (wrapCharLoop w max_width text lines cur curW).flatten =
      lines.flatten ++ cur ++ text := by
  intro text
  induction text with
  | nil =>
    intro lines cur curW
    rw [wrapCharLoop]
    by_cases hc : cur = []
    · rw [if_pos hc, hc]
      simp
    · rw [if_neg hc]
      simp
  | cons c rest ih =>
    intro lines cur curW
    rw [wrapCharLoop]
    by_cases hfit : curW + w c ≤ max_width
    · rw [if_pos hfit, ih]
      simp
    · rw [if_neg hfit, ih]
      by_cases hc : cur = []
      · rw [if_pos hc, hc]
        simp
      · rw [if_neg hc]
        simp

theorem wrapCharLoop_nonempty (w : Char → ℚ) (max_width : ℚ) :
    ∀ (text : List Char) (lines : List (List Char)) (cur : List Char) (curW : ℚ),
    (∀ l ∈ lines, l ≠ []) →
    ∀ l ∈ wrapCharLoop w max_width text lines cur curW, l ≠ [] := by
  intro text
  induction text with
  | nil =>
    intro lines cur curW hlines
    rw [wrapCharLoop]
    by_cases hc : cur = []
    · rw [if_pos hc]
      exact hlines
    · rw [if_neg hc]
      intro l hl
      rcases List.mem_append.1 hl with h | h
      · exact hlines l h
      · rw [List.mem_singleton.1 h]
        exact hc
  | cons c rest ih =>
    intro lines cur curW hlines
    rw [wrapCharLoop]
    by_cases hfit : curW + w c ≤ max_width
    · rw [if_pos hfit]
      exact ih _ _ _ hlines
    · rw [if_neg hfit]
      apply ih
      intro l hl
      by_cases hc : cur = []
      · rw [if_pos hc] at hl
        exact hlines l hl
      · rw [if_neg hc] at hl
        rcases List.mem_append.1 hl with h | h
        · exact hlines l h
        · rw [List.mem_singleton.1 h]
          exact hc

theorem wrap_text_char_eq (text : List Char) (w : Char → ℚ) (max_width : ℚ) :
    wrap_text text w max_width "char" = wrapCharLoop w max_width text [] [] 0 := by
  unfold wrap_text
  rw [if_neg (by decide), if_neg (by decide), if_pos rfl]

/-- C4: every line returned by `char`-mode wrapping has measured width at
most `max_width`, except that a single character wider than `max_width`
occupies a line by itself (it is emitted, not dropped). -/
theorem char_wrap_line_width (w : Char → ℚ) (max_width : ℚ) (text l : List Char)
    (hl : l ∈ wrap_text text w max_width "char") :
    lineWidth w l ≤ max_width ∨ ∃ c, l = [c] ∧ max_width < w c := by
  rw [wrap_text_char_eq] at hl
  refine wrapCharLoop_width w max_width text [] [] 0 ?_ ?_ ?_ l hl
  · intro l hl
    simp at hl
  · intro h
    exact absurd rfl h
  · rfl

/-- Witness for C4 at a concrete input. -/
theorem char_wrap_line_width_witness :
    lineWidth (fun _ => (1 : ℚ)) ['a', 'b'] ≤ 2 ∨
      ∃ c, ['a', 'b'] = [c] ∧ (2 : ℚ) < (fun _ => (1 : ℚ)) c :=
  char_wrap_line_width (fun _ => (1 : ℚ)) 2 ['a', 'b', 'c'] ['a', 'b']
    (by norm_num +decide [wrap_text, wrapCharLoop])

/-- C10: concatenating (with no separator) the lines returned by `char`-mode
wrapping yields exactly the original text — no character is dropped,
duplicated or reordered — and no emitted line is empty. -/
theorem char_wrap_lossless (w : Char → ℚ) (max_width : ℚ) (text l : List Char)
    (hl : l ∈ wrap_text text w max_width "char") :
    (wrap_text text w max_width "char").flatten = text ∧ l ≠ [] := by
  rw [wrap_text_char_eq] at hl ⊢
  constructor
  · rw [wrapCharLoop_flatten]
    simp
  · refine wrapCharLoop_nonempty w max_width text [] [] 0 ?_ l hl
    intro l hl
    simp at hl

/-- Witness for C10 at a concrete input. -/
theorem char_wrap_lossless_witness :
    (wrap_text ['a', 'b', 'c'] (fun _ => (1 : ℚ)) 2 "char").flatten = ['a', 'b', 'c'] ∧
      ['a', 'b'] ≠ [] :=
  char_wrap_lossless (fun _ => (1 : ℚ)) 2 ['a', 'b', 'c'] ['a', 'b']
    (by norm_num +decide [wrap_text, wrapCharLoop])

theorem lineWidth_joinSpace_single (w : Char → ℚ) (x : List Char) :
    lineWidth w (joinSpace [x]) = lineWidth w x := rfl

theorem lineWidth_joinSpace_append (w : Char → ℚ) (x : List Char) :
    ∀ cur : List (List Char), cur ≠ [] →
    lineWidth w (joinSpace (cur ++ [x])) =
      lineWidth w (joinSpace cur) + w ' ' + lineWidth w x := by
  intro cur
  induction cur with
  | nil => intro h; exact absurd rfl h
  | cons a t ih =>
    intro _
    cases t with
    | nil =>
      simp only [List.cons_append, List.nil_append, joinSpace, lineWidth_append,
        lineWidth_cons]
      ring
    | cons b t2 =>
      have hne : b :: t2 ≠ [] := by simp
      have hih := ih hne
      simp only [List.cons_append] at hih ⊢
      simp only [joinSpace, lineWidth_append, lineWidth_cons] at hih ⊢
      linarith

theorem wrapWordsLoop_width (w : Char → ℚ) (max_width : ℚ) (hs : 0 ≤ w ' ') :
    ∀ (ws : List (List Char)) (lines : List (List (List Char)))
      (cur : List (List Char)) (curW : ℚ),
    (∀ l ∈ lines, 2 ≤ l.length → lineWidth w (joinSpace l) ≤ max_width + w ' ') →
    (cur = [] → curW = 0) →
    (cur ≠ [] → lineWidth w (joinSpace cur) ≤ curW ∧
      (2 ≤ cur.length → lineWidth w (joinSpace cur) ≤ max_width + w ' ')) →
    ∀ l ∈ wrapWordsLoop w max_width (w ' ') ws lines cur curW,
      2 ≤ l.length → lineWidth w (joinSpace l) ≤ max_width + w ' ' := by
  intro ws
  induction ws with
  | nil =>
    intro lines cur curW hlines hcur0 hcur
    rw [wrapWordsLoop]
    by_cases hc : cur = []
    · rw [if_pos hc]
      exact hlines
    · rw [if_neg hc]
      intro l hl
      rcases List.mem_append.1 hl with h | h
      · exact hlines l h
      · rw [List.mem_singleton.1 h]
        exact (hcur hc).2
  | cons word rest ih =>
    intro lines cur curW hlines hcur0 hcur
    rw [wrapWordsLoop]
    by_cases hbr : max_width < curW + lineWidth w word ∧ cur ≠ []
    · rw [if_pos hbr]
      apply ih
      · intro l hl
        rcases List.mem_append.1 hl with h | h
        · exact hlines l h
        · rw [List.mem_singleton.1 h]
          exact (hcur hbr.2).2
      · intro h
        simp at h
      · intro _
        refine ⟨le_of_eq (lineWidth_joinSpace_single w word), ?_⟩
        intro h2
        simp at h2
    · rw [if_neg hbr]
      apply ih
      · exact hlines
      · intro h
        simp at h
      · intro _
        by_cases hc : cur = []
        · subst hc
          have h0 : curW = 0 := hcur0 rfl
          constructor
          · rw [List.nil_append, lineWidth_joinSpace_single, h0]
            linarith
          · intro h2
            simp at h2
        · have hw := lineWidth_joinSpace_append w word cur hc
          have hcur2 := (hcur hc).1
          rcases not_and_or.1 hbr with hnl | hceq
          · have hfit : curW + lineWidth w word ≤ max_width := le_of_not_lt hnl
            constructor
            · rw [hw]
              linarith
            · intro _
              rw [hw]
              linarith
          · exact absurd (not_not.1 hceq) hc

theorem wrapWordsLoop_flatten (w : Char → ℚ) (max_width space_width : ℚ) :
    ∀ (ws : List (List Char)) (lines : List (List (List Char)))
      (cur : List (List Char)) (curW : ℚ),
    (wrapWordsLoop w max_width space_width ws lines cur curW).flatten =
      lines.flatten ++ cur ++ ws := by
  intro ws
  induction ws with
  | nil =>
    intro lines cur curW
    rw [wrapWordsLoop]
    by_cases hc : cur = []
    · rw [if_pos hc, hc]
      simp
    · rw [if_neg hc]
      simp
  | cons word rest ih =>
    intro lines cur curW
    rw [wrapWordsLoop]
    by_cases hbr : max_width < curW + lineWidth w word ∧ cur ≠ []
    · rw [if_pos hbr, ih]
      simp
    · rw [if_neg hbr, ih]
      simp

/-- C7 counterexample: with the additive font `wcex` (width 10 for `'a'`, 1
for the space, 5 otherwise) and `max_width = 10`, word-wrapping the text
`"a b c"` emits the two-word line `"b c"` whose measured width is
`5 + 1 + 5 = 11 > 10`: after a wrap break the running width forgets the
leading space, so a two-or-more-word line can exceed `max_width`. -/
def wcex : Char → ℚ := fun c => if c = 'a' then 10 else if c = ' ' then 1 else 5

theorem word_wrap_width_cex :
    [['b'], ['c']] ∈ wrapWordLines wcex 10 (wcex ' ') (splitWords ['a', ' ', 'b', ' ', 'c']) ∧
    2 ≤ ([['b'], ['c']] : List (List Char)).length ∧
    10 < lineWidth wcex (joinSpace [['b'], ['c']]) := by
  refine ⟨?_, by decide, ?_⟩
  · norm_num +decide [wrapWordLines, wrapWordsLoop, splitWords, splitWordsAux, lineWidth, wcex]
  · norm_num +decide [lineWidth, joinSpace, wcex]

/-- C7 (amended): for every whitespace-separated input text and every
additive font with a non-negative space width, word-mode wrapping drops,
duplicates and reorders no word (the concatenation of the emitted lines is
exactly the split word list, so a single over-width word still occupies its
own line), and every emitted line containing two or more words has measured
width (word widths plus one space width per gap) at most
`max_width + space_width`.  The original bound `max_width` itself holds for
lines begun from the empty accumulator but can be exceeded by exactly one
space width on a line begun at a wrap break, because the source's running
width forgets the leading space there (see the counterexample). -/
theorem word_wrap_width (w : Char → ℚ) (max_width : ℚ) (text : List Char)
    (hs : 0 ≤ w ' ') (l : List (List Char))
    (hl : l ∈ wrapWordLines w max_width (w ' ') (splitWords text)) :
    (wrapWordLines w max_width (w ' ') (splitWords text)).flatten = splitWords text ∧
    (2 ≤ l.length → lineWidth w (joinSpace l) ≤ max_width + w ' ') := by
  constructor
  · rw [wrapWordLines, wrapWordsLoop_flatten]
    simp
  · exact wrapWordsLoop_width w max_width hs (splitWords text) [] [] 0
      (by intro l2 hl2; simp at hl2) (fun _ => rfl)
      (by intro h; exact absurd rfl h) l hl

/-- Witness for C7 at a concrete input. -/
theorem word_wrap_width_witness :
    (wrapWordLines (fun _ => (1 : ℚ)) 5 ((fun _ => (1 : ℚ)) ' ')
        (splitWords ['a', 'b', ' ', 'c', 'd'])).flatten =
      splitWords ['a', 'b', ' ', 'c', 'd'] ∧
    (2 ≤ ([['a', 'b'], ['c', 'd']] : List (List Char)).length →
      lineWidth (fun _ => (1 : ℚ)) (joinSpace [['a', 'b'], ['c', 'd']]) ≤
        5 + (fun _ => (1 : ℚ)) ' ') :=
  word_wrap_width (fun _ => (1 : ℚ)) 5 ['a', 'b', ' ', 'c', 'd'] (by norm_num)
    [['a', 'b'], ['c', 'd']]
    (by norm_num +decide [wrapWordLines, wrapWordsLoop, splitWords, splitWordsAux, lineWidth])

/-! ## Content-synthesis lemmas -/

theorem length_set2d (g : List (List (Option String))) (i j : Nat) (v : Option String) :
    (set2d g i j v).length = g.length := by
  simp [set2d]

theorem mem_set2d (g : List (List (Option String))) (i j : Nat) (v : Option String)
    (C : Nat) (h : ∀ row ∈ g, row.length = C) :
    ∀ row ∈ set2d g i j v, row.length = C := by
  intro row hrow
  by_cases hi : i < g.length
  · rcases List.mem_or_eq_of_mem_set hrow with hmem | heq
    · exact h row hmem
    · subst heq
      rw [List.length_set]
      apply h
      rw [List.getD_eq_getElem g [] hi]
      exact List.getElem_mem hi
  · unfold set2d at hrow
    rw [List.set_eq_of_length_le (Nat.le_of_not_lt hi)] at hrow
    exact h row hrow

theorem dataLoop_shape (o : Oracle) (p1 p2 : ℚ) (er : List Bool) (ec : Option Nat)
    (R C : Nat) (g : List (List (Option String))) (s : RState)
    (hg : g.length = R) (hrow : ∀ row ∈ g, row.length = C) :
    (dataLoop o p1 p2 er ec R C g s).1.length = R ∧
    ∀ row ∈ (dataLoop o p1 p2 er ec R C g s).1, row.length = C := by
  unfold dataLoop
  refine foldl_inv (fun a => a.1.length = R ∧ ∀ row ∈ a.1, row.length = C) _
    ?_ (List.range R) (g, s) ⟨hg, hrow⟩
  intro a i ha
  refine foldl_inv (fun a2 => a2.1.length = R ∧ ∀ row ∈ a2.1, row.length = C) _
    ?_ (List.range C) a ha
  intro a2 j ha2
  dsimp only
  split
  · exact ha2
  · split
    · exact ha2
    · exact ⟨by rw [length_set2d]; exact ha2.1, mem_set2d _ i j _ C ha2.2⟩

theorem gcc_ok_spec (rows columns : Nat) (o : Oracle) (is_normal : Bool)
    (p_er p_ec p_ecell p_large p_ch p_rh : ℚ) (res : CellContent)
    (h : generate_cell_content rows columns o is_normal p_er p_ec p_ecell p_large
      p_ch p_rh = Except.ok res) :
    res.data.length = rows - (if res.has_column_headers then 1 else 0) ∧
    (∀ row ∈ res.data, row.length = columns - (if res.has_row_headers then 1 else 0)) ∧
    res.corner_header =
      (if res.has_column_headers && res.has_row_headers then some "ID" else none) := by
  unfold generate_cell_content at h
  dsimp only at h
  split at h
  · exact absurd h (by simp)
  · rw [Except.ok.injEq] at h
    subst h
    dsimp only
    refine ⟨?_, ?_, rfl⟩
    · exact (dataLoop_shape _ _ _ _ _ _ _ _ _ (by simp)
        (fun row hrow => by rw [List.eq_of_mem_replicate hrow]; simp)).1
    · exact (dataLoop_shape _ _ _ _ _ _ _ _ _ (by simp)
        (fun row hrow => by rw [List.eq_of_mem_replicate hrow]; simp)).2

theorem gtd_ok_spec (rows columns : Nat) (o : Oracle) (is_normal : Bool)
    (p_er p_ec p_ecell p_large p_ch p_rh : ℚ) (t : TableData)
    (h : generate_table_data rows columns o is_normal p_er p_ec p_ecell p_large
      p_ch p_rh = Except.ok t) :
    t.data.length = rows ∧ (∀ row ∈ t.data, row.length = columns) ∧
    t.rows = rows ∧ t.columns = columns := by
  unfold generate_table_data at h
  dsimp only at h
  split at h
  · exact absurd h (by simp)
  · rw [Except.ok.injEq] at h
    subst h
    dsimp only
    refine ⟨?_, ?_, rfl, rfl⟩
    · exact (dataLoop_shape _ _ _ _ _ _ _ _ _ (by simp [TableData.init])
        (fun row hrow => by
          simp only [TableData.init] at hrow
          rw [List.eq_of_mem_replicate hrow]
          simp)).1
    · exact (dataLoop_shape _ _ _ _ _ _ _ _ _ (by simp [TableData.init])
        (fun row hrow => by
          simp only [TableData.init] at hrow
          rw [List.eq_of_mem_replicate hrow]
          simp)).2

/-- C3 counterexample: `RandomDataGenerator.generate_table_data` does NOT
shrink the body for headers.  With both header probabilities 1 (so
`has_column_headers = has_row_headers = true`) a request for 2×2 yields a
body of 2 rows and 2 columns, not `2 - 1`. -/
theorem content_body_shape_cex :
    generate_table_data 2 2 ⟨fun _ => 0, fun _ => 0, fun _ => ""⟩ true 0 0 1 0 1 1 =
      Except.ok (TableData.mk 2 2 true true [[none, none], [none, none]]
        [some "", some ""] [some "", some ""] (some "ID")) ∧
    (2 : Nat) - 1 ≠ 2 := ⟨rfl, by decide⟩

/-- C3 (amended): whenever content synthesis returns a result,
`maker.generate_cell_content` produces a data body whose row count is the
requested rows minus one exactly when column headers are present and whose
column count is the requested columns minus one exactly when row headers are
present; `RandomDataGenerator.generate_table_data`, by contrast, always
produces a body of exactly the requested `rows × columns` — its header lists
live in separate fields and do not shrink the body (see the
counterexample). -/
theorem content_body_shape :
    (∀ (rows columns : Nat) (o : Oracle) (is_normal : Bool)
       (p_er p_ec p_ecell p_large p_ch p_rh : ℚ) (res : CellContent),
       generate_cell_content rows columns o is_normal p_er p_ec p_ecell p_large
         p_ch p_rh = Except.ok res →
       res.data.length = rows - (if res.has_column_headers then 1 else 0) ∧
       ∀ row ∈ res.data,
         row.length = columns - (if res.has_row_headers then 1 else 0)) ∧
    (∀ (rows columns : Nat) (o : Oracle) (is_normal : Bool)
       (p_er p_ec p_ecell p_large p_ch p_rh : ℚ) (t : TableData),
       generate_table_data rows columns o is_normal p_er p_ec p_ecell p_large
         p_ch p_rh = Except.ok t →
       t.data.length = rows ∧ ∀ row ∈ t.data, row.length = columns) := by
  constructor
  · intro rows columns o is_normal p_er p_ec p_ecell p_large p_ch p_rh res h
    have := gcc_ok_spec rows columns o is_normal p_er p_ec p_ecell p_large p_ch p_rh res h
    exact ⟨this.1, this.2.1⟩
  · intro rows columns o is_normal p_er p_ec p_ecell p_large p_ch p_rh t h
    have := gtd_ok_spec rows columns o is_normal p_er p_ec p_ecell p_large p_ch p_rh t h
    exact ⟨this.1, this.2.1⟩

/-- Witness for C3 at a concrete input: a successful 2×2 run of
`generate_cell_content` with both header kinds present has a 1×1 body, and
the corresponding `generate_table_data` run keeps a 2-row body. -/
theorem content_body_shape_witness :
    (CellContent.mk [[none]] true true [some ""] [some ""] (some "ID")).data.length =
      2 - (if (CellContent.mk [[none]] true true [some ""] [some ""]
        (some "ID")).has_column_headers then 1 else 0) ∧
    (TableData.mk 2 2 true true [[none, none], [none, none]] [some "", some ""]
      [some "", some ""] (some "ID")).data.length = 2 :=
  ⟨(content_body_shape.1 2 2 ⟨fun _ => 0, fun _ => 0, fun _ => ""⟩ true 0 0 1 0 1 1
      (CellContent.mk [[none]] true true [some ""] [some ""] (some "ID")) rfl).1,
   (content_body_shape.2 2 2 ⟨fun _ => 0, fun _ => 0, fun _ => ""⟩ true 0 0 1 0 1 1
      (TableData.mk 2 2 true true [[none, none], [none, none]] [some "", some ""]
        [some "", some ""] (some "ID")) rfl).1⟩

/-- C5: in every `TableData` construction the corner header is the fixed
non-null label `"ID"` exactly when both header flags are true and is `none`
otherwise; the same holds for the `corner_header` field produced by
`maker.generate_cell_content` whenever it returns a result. -/
theorem corner_header_iff :
    (∀ (rows columns : Nat) (hch hrh : Bool),
      ((TableData.init rows columns hch hrh).corner_header ≠ none ↔
        hch = true ∧ hrh = true) ∧
      ((TableData.init rows columns hch hrh).corner_header ≠ none →
        (TableData.init rows columns hch hrh).corner_header = some "ID")) ∧
    (∀ (rows columns : Nat) (o : Oracle) (is_normal : Bool)
       (p_er p_ec p_ecell p_large p_ch p_rh : ℚ) (res : CellContent),
       generate_cell_content rows columns o is_normal p_er p_ec p_ecell p_large
         p_ch p_rh = Except.ok res →
       ((res.corner_header ≠ none ↔
          res.has_column_headers = true ∧ res.has_row_headers = true) ∧
        (res.corner_header ≠ none → res.corner_header = some "ID"))) := by
  constructor
  · intro rows columns hch hrh
    cases hch <;> cases hrh <;> simp [TableData.init]
  · intro rows columns o is_normal p_er p_ec p_ecell p_large p_ch p_rh res h
    have hc := (gcc_ok_spec rows columns o is_normal p_er p_ec p_ecell p_large
      p_ch p_rh res h).2.2
    rw [hc]
    cases hb1 : res.has_column_headers <;> cases hb2 : res.has_row_headers <;> simp

/-- Witness for C5 at a concrete input. -/
theorem corner_header_iff_witness :
    ((TableData.init 1 1 true true).corner_header ≠ none ↔
      (true : Bool) = true ∧ (true : Bool) = true) ∧
    ((CellContent.mk [[none]] true true [some ""] [some ""] (some "ID")).corner_header ≠
        none ↔
      (CellContent.mk [[none]] true true [some ""] [some ""]
          (some "ID")).has_column_headers = true ∧
      (CellContent.mk [[none]] true true [some ""] [some ""]
          (some "ID")).has_row_headers = true) :=
  ⟨(corner_header_iff.1 1 1 true true).1,
   (corner_header_iff.2 2 2 ⟨fun _ => 0, fun _ => 0, fun _ => ""⟩ true 0 0 1 0 1 1
      (CellContent.mk [[none]] true true [some ""] [some ""] (some "ID")) rfl).1⟩
